import Mathlib

/-!
# ConnectionPool (ConnectionPool.hpp): shallow embedding and verified properties

The embedding follows `src/ConnectionPool.hpp`:

* `ConnectionPool` is the registry part of the class: `connections`,
  `idle_connections_` (a `std::queue`, front = head of the list) and
  `active_count_`.  The configuration members (`timeout`, `statements`,
  `conn_str_`) and the synchronisation members (`mutex_`, `condition_`) carry
  no registry data; every member function below is the body of its critical
  section, run on the state it observes while it holds `mutex_`.
* `size_t` members are natural numbers; `++`, `--` and `+` on them are taken
  modulo `2^64`.
* Exceptions are values of `Exn`; a member function that can throw after it
  changed the pool returns the resulting pool next to the outcome.
* The database server is an oracle: the `k`-th connection attempt made by
  `create_connection` has the outcome `factory k`.
-/

namespace PqxxPool

/-! ## Data model -/

/-- Modulus of `size_t` arithmetic (64-bit target). -/
def SIZE_MOD : Nat := 2 ^ 64

/-- Largest `size_t` value. -/
def SIZE_MAX : Nat := 2 ^ 64 - 1

/-- Source: `#define retries 5`. -/
def retries : Nat := 5

/-- A `pqxx::connection` as far as the pool looks at it: an identity and the
answer of `is_open()`. -/
structure Connection where
  id : Nat
  is_open : Bool
deriving DecidableEq, Repr

/-- A `std::shared_ptr<pqxx::connection>`; `none` is the null pointer. -/
abbrev ConnPtr := Option Connection

/-- Exceptions thrown by the pool and by libpqxx. -/
inductive Exn where
  | runtime_error (what : String)
  | broken_connection (what : String)
  | other_failure (what : String)
deriving DecidableEq, Repr

/-- Registry members of `ConnectionPool<N>`. -/
structure ConnectionPool where
  connections : Nat
  idle_connections_ : List ConnPtr
  active_count_ : Nat
deriving DecidableEq, Repr

deriving instance DecidableEq for Except

/-- The nested class `ConnectionPool::ConnectionGuard`: the held `conn_`
(the back-reference `pool_` is the pool the guard is destroyed against). -/
structure ConnectionGuard where
  conn_ : ConnPtr
deriving DecidableEq, Repr

/-- The constructor: stores `connections`; the queue starts empty and
`active_count_{0}`. -/
def ConnectionPool.construct (connections : Nat) : ConnectionPool :=
  { connections := connections, idle_connections_ := [], active_count_ := 0 }

/-- `size_t` pre-increment. -/
def size_succ (n : Nat) : Nat := (n + 1) % SIZE_MOD

/-- `size_t` pre/post-decrement: `0` wraps to `SIZE_MAX`.  This is
`(n + 2^64 - 1) % 2^64` (`size_pred_eq_mod`), written by cases on `n == 0`. -/
def size_pred (n : Nat) : Nat := if n = 0 then SIZE_MAX else (n - 1) % SIZE_MOD

/-- `size_t` addition. -/
def size_add (a b : Nat) : Nat := (a + b) % SIZE_MOD

/-- The test `conn && conn->is_open()`. -/
def conn_alive (conn : ConnPtr) : Bool :=
  match conn with
  | none => false
  | some c => c.is_open

/-! ## Operations -/

/-- Source: `~ConnectionGuard()`: push `conn_` at the back of the queue,
(notify one waiter,) decrement `active_count_`. -/
def ConnectionGuard.destroy (g : ConnectionGuard) (pool_ : ConnectionPool) : ConnectionPool :=
  let pool1 := { pool_ with idle_connections_ := pool_.idle_connections_ ++ [g.conn_] }
  { pool1 with active_count_ := size_pred pool1.active_count_ }

/-- Source: `protocol_con_failed()`: `connections--`. -/
def protocol_con_failed (p : ConnectionPool) : ConnectionPool :=
  { p with connections := size_pred p.connections }

/-- Source: `get_connection()`.  Returns the guard or the exception thrown,
together with the pool afterwards.  `condition_.wait_for(lock, timeout, pred)`
returns the value of `!idle_connections_.empty()` on the state the caller
holds when the wait ends: `false` exactly when the queue is still empty once
the timeout has elapsed, which is the first branch. -/
def get_connection (p : ConnectionPool) : Except Exn ConnectionGuard × ConnectionPool :=
  match p.idle_connections_ with
  | [] => (.error (.runtime_error "Connection pool timeout"), p)
  | conn :: rest =>
    -- auto conn = idle_connections_.front(); idle_connections_.pop();
    let p1 := { p with idle_connections_ := rest }
    if conn_alive conn then
      (.ok { conn_ := conn }, { p1 with active_count_ := size_succ p1.active_count_ })
    else
      (.error (.runtime_error "Connection failed"), protocol_con_failed p1)

/-- The run of `drain()` calls `idle_connections_.pop()` on an empty
`std::queue`, which is undefined behaviour.  The embedding follows the run up
to that call and says nothing about what the program does after it. -/
inductive DrainFault where
  | pop_on_empty_queue
deriving DecidableEq, Repr

/-- The loop of `drain()`:
`while (idle_connections_.size() + active_count_) idle_connections_.pop();`
on the queue contents, `active_count_` being constant throughout the loop.
Returns the queue at loop exit, or `.error` when the run comes to a `pop()` on
the empty queue. -/
def drain_loop (active_count_ : Nat) : List ConnPtr → Except DrainFault (List ConnPtr)
  | [] =>
    if size_add 0 active_count_ ≠ 0 then .error .pop_on_empty_queue else .ok []
  | conn :: rest =>
    if size_add (conn :: rest).length active_count_ ≠ 0 then drain_loop active_count_ rest
    else .ok (conn :: rest)

/-- Source: `drain()`: the loop, then `active_count_ = 0`.  `.ok` is a run that
returns without an undefined `pop()`; `.error` is a run that comes to one. -/
def drain (p : ConnectionPool) : Except DrainFault ConnectionPool :=
  match drain_loop p.active_count_ p.idle_connections_ with
  | .error f => .error f
  | .ok q => .ok { p with idle_connections_ := q, active_count_ := 0 }

/-- Source: `increase_connection()`: `// Todo: implement`, `return 1;`. -/
def increase_connection (p : ConnectionPool) : Bool × ConnectionPool := (true, p)

/-- Source: `decrease_connection()`: `// Todo:implement`, `return 1;`. -/
def decrease_connection (p : ConnectionPool) : Bool × ConnectionPool := (true, p)

/-! ## Initialisation -/

/-- What one call of `create_connection()` meets outside the pool: either the
`pqxx::connection` constructor throws, or it yields a connection and the
`prepare` loop over `statements` throws `prepare_error`, if any. -/
inductive ConnectAttempt where
  | ctor_throws (e : Exn)
  | constructed (c : Connection) (prepare_error : Option Exn)
deriving DecidableEq, Repr

/-- Source: `create_connection()`. -/
def create_connection (a : ConnectAttempt) : Except Exn ConnPtr :=
  match a with
  | .ctor_throws e => .error e
  | .constructed c prepare_error =>
    if !c.is_open then .error (.broken_connection "Connection failed")
    else
      match prepare_error with
      | some e => .error e
      | none => .ok (some c)

/-- The locals of `init()` next to the pool: `failed`, and the number of
`create_connection()` calls made so far (the index of the next attempt in the
oracle). -/
structure InitState where
  pool : ConnectionPool
  failed : Nat
  calls : Nat
deriving DecidableEq, Repr

/-- The inner loop of `init()`, `for (int i = 0; i < retries; i++)`, from loop
index `i` on; `fuel` bounds the number of iterations and `retries - i` is
enough.  The result is the exception leaving the loop, if any (only
`pqxx::broken_connection` is caught), and the state. -/
def init_slot (factory : Nat → ConnectAttempt) : Nat → Nat → InitState → Option Exn × InitState
  | 0, _, s => (none, s)
  | fuel + 1, i, s =>
    if i < retries then
      let s1 := { s with calls := s.calls + 1 }
      match create_connection (factory s.calls) with
      | .ok conn =>
        -- idle_connections_.push(...); break;
        (none, { s1 with pool :=
          { s1.pool with idle_connections_ := s1.pool.idle_connections_ ++ [conn] } })
      | .error (.broken_connection _) =>
        -- if (i == retries - 1) ++failed; continue;
        let s2 := if i = retries - 1 then { s1 with failed := s1.failed + 1 } else s1
        init_slot factory fuel (i + 1) s2
      | .error e => (some e, s1)
    else (none, s)

/-- The outer loop of `init()`, `for (size_t i = 0; i < connections; ++i)`: the
body neither reads `i` nor writes `connections`, so the loop is `n` runs of the
inner loop, `n` being the iterations left; an exception ends it. -/
def init_slots (factory : Nat → ConnectAttempt) : Nat → InitState → Option Exn × InitState
  | 0, s => (none, s)
  | n + 1, s =>
    match init_slot factory retries 0 s with
    | (some e, s1) => (some e, s1)
    | (none, s1) => init_slots factory n s1

/-- How a call of `init()` ends. -/
inductive InitResult where
  | returned (p : ConnectionPool)
  | exited (status : Int) (p : ConnectionPool)
  | threw (e : Exn) (p : ConnectionPool)
deriving DecidableEq, Repr

/-- The two loops of `init()` from `size_t failed = 0`. -/
def init_run (factory : Nat → ConnectAttempt) (p : ConnectionPool) : Option Exn × InitState :=
  init_slots factory p.connections { pool := p, failed := 0, calls := 0 }

/-- Source: `init()`: the loops, then `if (failed == connections) exit(-1);`. -/
def init (factory : Nat → ConnectAttempt) (p : ConnectionPool) : InitResult :=
  match init_run factory p with
  | (some e, s) => .threw e s.pool
  | (none, s) => if s.failed = s.pool.connections then .exited (-1) s.pool else .returned s.pool

/-- Number of `create_connection()` calls made by `init()`. -/
def init_calls (factory : Nat → ConnectAttempt) (p : ConnectionPool) : Nat :=
  (init_run factory p).2.calls

/-- A factory whose every attempt yields an open connection numbered by the
attempt. -/
def factory_all_ok : Nat → ConnectAttempt :=
  fun k => .constructed { id := k, is_open := true } none

/-- A factory whose attempts `0` and `6 ..` succeed and whose attempts `1 .. 5`
are refused by the server. -/
def factory_one_slot_lost : Nat → ConnectAttempt :=
  fun k => if 1 ≤ k ∧ k ≤ 5 then .ctor_throws (.broken_connection "refused")
    else .constructed { id := k, is_open := true } none

/-! ## Outcome classes of a factory call, and the per-slot reading of the
retry rule -/

/-- The call returned a connection. -/
def is_success (r : Except Exn ConnPtr) : Bool :=
  match r with
  | .ok _ => true
  | .error _ => false

/-- The call threw `pqxx::broken_connection`, the one class `init()` catches. -/
def is_transient (r : Except Exn ConnPtr) : Bool :=
  match r with
  | .error (.broken_connection _) => true
  | _ => false

/-- Every factory call either succeeds or fails with the transient class. -/
def only_transient_failures (factory : Nat → ConnectAttempt) : Prop :=
  ∀ k, is_success (create_connection (factory k)) = true
    ∨ is_transient (create_connection (factory k)) = true

/-- Retry rule, as worded: the number `k` (counted from 1) of the first
successful attempt of a slot whose attempts start at oracle index `base`, among
at most `allowed` attempts; `none` when all of them fail. -/
def first_success (factory : Nat → ConnectAttempt) : Nat → Nat → Option Nat
  | 0, _ => none
  | allowed + 1, base =>
    if is_success (create_connection (factory base)) then some 1
    else (first_success factory allowed (base + 1)).map (· + 1)

/-- Retry rule, as worded: factory calls made by one slot, `k` when the first
success is on attempt `k`, else all `retries` attempts. -/
def slot_calls (factory : Nat → ConnectAttempt) (base : Nat) : Nat :=
  match first_success factory retries base with
  | some k => k
  | none => retries

/-- Retry rule, as worded: how many of `n` consecutive slots, the first one
starting at oracle index `base`, succeed within `retries` attempts. -/
def slots_succeeded (factory : Nat → ConnectAttempt) : Nat → Nat → Nat
  | 0, _ => 0
  | n + 1, base =>
    (if (first_success factory retries base).isSome then 1 else 0)
      + slots_succeeded factory n (base + slot_calls factory base)

/-- Retry rule, as worded: factory calls made by `n` consecutive slots. -/
def slots_calls (factory : Nat → ConnectAttempt) : Nat → Nat → Nat
  | 0, _ => 0
  | n + 1, base =>
    slot_calls factory base + slots_calls factory n (base + slot_calls factory base)

/-- Retry rule, as worded: how many of `n` consecutive slots, the first one
starting at oracle index `base`, exhaust their `retries` attempts. -/
def slots_exhausted (factory : Nat → ConnectAttempt) : Nat → Nat → Nat
  | 0, _ => 0
  | n + 1, base =>
    (if (first_success factory retries base).isSome then 0 else 1)
      + slots_exhausted factory n (base + slot_calls factory base)

/-- The pointer returned by the `k`-th factory call (null when it threw). -/
def created (factory : Nat → ConnectAttempt) (k : Nat) : ConnPtr :=
  match create_connection (factory k) with
  | .ok conn => conn
  | .error _ => none

/-! ## Client runs -/

/-- A pool together with the guards that are alive (constructed by
`get_connection()` and not yet destroyed), newest first. -/
structure World where
  pool : ConnectionPool
  guards : List ConnectionGuard
deriving DecidableEq, Repr

/-- The server closes the connection numbered `id`. -/
def close_id (id : Nat) (conn : ConnPtr) : ConnPtr :=
  match conn with
  | none => none
  | some c => if c.id = id then some { c with is_open := false } else some c

/-- What a client, or the server, does next. -/
inductive Call where
  | get_connection
  | guard_destroyed (i : Nat)
  | drain
  | increase_connection
  | decrease_connection
  | connection_lost (id : Nat)
deriving DecidableEq, Repr

/-- One call on a world.  `none` when the call breaks the usage rules (the
destructor of a guard that is not alive: each guard is destroyed once; `drain()`
while a guard is alive) or when `drain()` comes to a `pop()` on the empty
queue. -/
def step (w : World) : Call → Option World
  | .get_connection =>
    match get_connection w.pool with
    | (.ok g, p) => some { pool := p, guards := g :: w.guards }
    | (.error _, p) => some { pool := p, guards := w.guards }
  | .guard_destroyed i =>
    match w.guards.get? i with
    | none => none
    | some g => some { pool := g.destroy w.pool, guards := w.guards.eraseIdx i }
  | .drain =>
    if w.guards.isEmpty then
      match drain w.pool with
      | .ok p => some { pool := p, guards := [] }
      | .error _ => none
    else none
  | .increase_connection => some { w with pool := (increase_connection w.pool).2 }
  | .decrease_connection => some { w with pool := (decrease_connection w.pool).2 }
  | .connection_lost id =>
    some { pool := { w.pool with idle_connections_ := w.pool.idle_connections_.map (close_id id) },
           guards := w.guards.map (fun g => { conn_ := close_id id g.conn_ }) }

/-- A sequence of calls, in order. -/
def run (w : World) : List Call → Option World
  | [] => some w
  | c :: cs =>
    match step w c with
    | none => none
    | some w1 => run w1 cs

/-- Registry invariant: `idle_connections_.size() + active_count_ <= connections`. -/
def registry_bounded (p : ConnectionPool) : Prop :=
  p.idle_connections_.length + p.active_count_ ≤ p.connections

/-- What a run that keeps the usage rules maintains: the registry bound, one
live guard per unit of `active_count_`, and `connections` a `size_t`. -/
def world_ok (w : World) : Prop :=
  registry_bounded w.pool ∧ w.pool.active_count_ = w.guards.length
    ∧ w.pool.connections < SIZE_MOD

/-- The pool of `test_basic_functionality` after `init()`. -/
def pool3 : ConnectionPool :=
  ⟨3, [some ⟨0, true⟩, some ⟨1, true⟩, some ⟨2, true⟩], 0⟩

/-! ## Further definitions: the turns of the loop of `drain()`, the trace of
`init()`, ownership -/

/-- What the `k`-th factory call hands to `idle_connections_.push`, if it
returns. -/
def call_result (factory : Nat → ConnectAttempt) (k : Nat) : Option ConnPtr :=
  match create_connection (factory k) with
  | .ok conn => some conn
  | .error _ => none

/-- The connections returned by the factory calls `start .. start + len - 1`, in
call order. -/
def pushed_by_calls (factory : Nat → ConnectAttempt) (start len : Nat) : List ConnPtr :=
  (List.range' start len).filterMap (call_result factory)

/-- A factory whose call `0` succeeds, whose call `1` is refused by the server
and whose call `2` connects but fails in `prepare`. -/
def factory_prepare_fails : Nat → ConnectAttempt :=
  fun k =>
    if k = 1 then .ctor_throws (.broken_connection "refused")
    else if k = 2 then .constructed { id := k, is_open := true } (some (.other_failure "prepare"))
    else .constructed { id := k, is_open := true } none

/-- Identity of the resource a pointer refers to. -/
def conn_id (conn : ConnPtr) : Option Nat := conn.map Connection.id

/-- The factory yields pairwise distinct resources. -/
def distinct_resources (factory : Nat → ConnectAttempt) : Prop :=
  ∀ j k c d, create_connection (factory j) = .ok (some c) →
    create_connection (factory k) = .ok (some d) → c.id = d.id → j = k

/-- Resources owned by the registry followed by those owned by live guards. -/
def owned (w : World) : List ConnPtr :=
  w.pool.idle_connections_ ++ w.guards.map ConnectionGuard.conn_

/-- Exclusive ownership: no resource occurs twice among the idle ones and the
ones held by live guards. -/
def exclusive (w : World) : Prop := ((owned w).map conn_id).Nodup

/-- Trace of a stretch of `init()` that starts in state `s` and ends with
outcome `r`: it made `len` factory calls, wrote neither `connections` nor
`active_count_`, pushed exactly what those calls returned, in call order, and
a call that failed outside the transient class was the last one made, its
exception leaving the stretch. -/
def traced (factory : Nat → ConnectAttempt) (s : InitState) (r : Option Exn × InitState) :
    Prop :=
  ∃ len, r.2.calls = s.calls + len
    ∧ r.2.pool.connections = s.pool.connections
    ∧ r.2.pool.active_count_ = s.pool.active_count_
    ∧ r.2.pool.idle_connections_
        = s.pool.idle_connections_ ++ pushed_by_calls factory s.calls len
    ∧ ∀ j e, j < len → create_connection (factory (s.calls + j)) = .error e →
        is_transient (.error e) = false → j + 1 = len ∧ r.1 = some e

/-! ## Arithmetic of the `size_t` counters -/

theorem size_succ_eq (n : Nat) (h : n < SIZE_MAX) : size_succ n = n + 1 := by
  unfold size_succ SIZE_MOD
  unfold SIZE_MAX at h
  norm_num at h ⊢
  omega

theorem size_pred_eq_mod (n : Nat) : size_pred n = (n + SIZE_MOD - 1) % SIZE_MOD := by
  unfold size_pred SIZE_MAX SIZE_MOD
  norm_num
  split <;> omega

theorem size_pred_eq (n : Nat) (h0 : 0 < n) (h : n < SIZE_MOD) : size_pred n = n - 1 := by
  unfold size_pred
  unfold SIZE_MOD at h ⊢
  norm_num at h ⊢
  split <;> omega

theorem size_pred_succ (n : Nat) (h : n < SIZE_MOD) : size_pred (size_succ n) = n := by
  unfold size_pred size_succ SIZE_MAX
  unfold SIZE_MOD at h ⊢
  norm_num at h ⊢
  split <;> omega

theorem size_add_zero_right (n : Nat) (h : n < SIZE_MOD) : size_add n 0 = n := by
  unfold size_add
  exact Nat.mod_eq_of_lt h

/-! ## `get_connection()` -/

/-- C1: when the idle queue is non-empty and its front resource is open (and
the `size_t` counter `active_count_` is below its maximum), `get_connection()`
returns a guard holding exactly the front resource; afterwards the queue is the
old one without its front, order kept, `active_count_` is one more and
`connections` is unchanged. -/
theorem get_connection_front_open (p : ConnectionPool) (conn : ConnPtr) (rest : List ConnPtr)
    (hidle : p.idle_connections_ = conn :: rest) (hopen : conn_alive conn = true)
    (hcount : p.active_count_ < SIZE_MAX) :
    get_connection p =
      (.ok { conn_ := conn },
       { connections := p.connections, idle_connections_ := rest,
         active_count_ := p.active_count_ + 1 }) := by
  unfold get_connection
  rw [hidle]
  simp only [hopen, if_true]
  rw [size_succ_eq _ hcount]

/-- Witness of C1: the 3-resource pool after one `get_connection()` has
`active_count_ == 1` and two idle connections. -/
theorem get_connection_front_open_witness :
    (get_connection pool3).2.active_count_ = 1
      ∧ (get_connection pool3).2.idle_connections_.length = 2 := by
  have h := get_connection_front_open pool3 (some ⟨0, true⟩)
    [some ⟨1, true⟩, some ⟨2, true⟩] rfl rfl (by decide)
  rw [h]
  exact ⟨rfl, rfl⟩

/-- C2: when the idle queue is empty at the end of the wait, `get_connection()`
throws `std::runtime_error("Connection pool timeout")` and the pool
(`idle_connections_`, `active_count_`, `connections`) is what it was. -/
theorem get_connection_timeout (p : ConnectionPool) (hidle : p.idle_connections_ = []) :
    get_connection p = (.error (.runtime_error "Connection pool timeout"), p) := by
  unfold get_connection
  rw [hidle]

/-- Witness of C2: capacity 2 with both resources on loan. -/
theorem get_connection_timeout_witness :
    get_connection ⟨2, [], 2⟩ = (.error (.runtime_error "Connection pool timeout"), ⟨2, [], 2⟩) :=
  get_connection_timeout ⟨2, [], 2⟩ rfl

/-- C3: when the front idle resource is dead (null, or not open),
`get_connection()` throws `std::runtime_error("Connection failed")`; that one
resource leaves the queue and is neither put back nor handed out, the rest of
the queue is left as it is (no second dequeue, even with live resources
behind), `connections` is one less and `active_count_` is unchanged. -/
theorem get_connection_front_dead (p : ConnectionPool) (conn : ConnPtr) (rest : List ConnPtr)
    (hidle : p.idle_connections_ = conn :: rest)
    (hdead : conn = none ∨ ∃ c, conn = some c ∧ c.is_open = false)
    (hcap : 0 < p.connections) (hsize : p.connections < SIZE_MOD) :
    get_connection p =
      (.error (.runtime_error "Connection failed"),
       { connections := p.connections - 1, idle_connections_ := rest,
         active_count_ := p.active_count_ }) := by
  have hnot : conn_alive conn = false := by
    rcases hdead with h | ⟨c, h, hc⟩
    · rw [h]; rfl
    · rw [h]; exact hc
  unfold get_connection
  rw [hidle]
  simp only [hnot, protocol_con_failed]
  rw [size_pred_eq _ hcap hsize]
  rfl

/-- Witness of C3: a closed connection in front of a live one. -/
theorem get_connection_front_dead_witness :
    get_connection ⟨3, [some ⟨0, false⟩, some ⟨1, true⟩], 1⟩ =
      (.error (.runtime_error "Connection failed"), ⟨2, [some ⟨1, true⟩], 1⟩) :=
  get_connection_front_dead ⟨3, [some ⟨0, false⟩, some ⟨1, true⟩], 1⟩ (some ⟨0, false⟩)
    [some ⟨1, true⟩] rfl (Or.inr ⟨⟨0, false⟩, rfl, rfl⟩) (by decide) (by decide)

/-- C4: acquire then release is a round trip: when `get_connection()` returns
a guard, destroying that guard gives back the idle size, `active_count_` and
`connections` of before the call, and the queue holds the same resources (the
old front now at the back). -/
theorem acquire_release_round_trip (p p1 : ConnectionPool) (g : ConnectionGuard)
    (hsize : p.active_count_ < SIZE_MOD) (hget : get_connection p = (.ok g, p1)) :
    (g.destroy p1).idle_connections_.length = p.idle_connections_.length
      ∧ (g.destroy p1).active_count_ = p.active_count_
      ∧ (g.destroy p1).connections = p.connections
      ∧ (g.destroy p1).idle_connections_.Perm p.idle_connections_
      ∧ (g.destroy p1).idle_connections_ = p.idle_connections_.rotate 1 := by
  unfold get_connection at hget
  cases hq : p.idle_connections_ with
  | nil => rw [hq] at hget; simp at hget
  | cons conn rest =>
    rw [hq] at hget
    by_cases halive : conn_alive conn = true
    · simp only [halive, if_true, Prod.mk.injEq, Except.ok.injEq] at hget
      obtain ⟨hg, hp1⟩ := hget
      subst hg
      subst hp1
      refine ⟨?_, ?_, ?_, ?_, ?_⟩
      · simp [ConnectionGuard.destroy]
      · exact size_pred_succ _ hsize
      · rfl
      · exact List.perm_append_singleton conn rest
      · simp [ConnectionGuard.destroy, List.rotate_cons_succ]
    · simp [halive] at hget

/-- Witness of C4: the 3-resource pool, acquire then scope exit. -/
theorem acquire_release_round_trip_witness :
    ((⟨some ⟨0, true⟩⟩ : ConnectionGuard).destroy ⟨3, [some ⟨1, true⟩, some ⟨2, true⟩], 1⟩).active_count_ = 0
      ∧ ((⟨some ⟨0, true⟩⟩ : ConnectionGuard).destroy
          ⟨3, [some ⟨1, true⟩, some ⟨2, true⟩], 1⟩).idle_connections_.length = 3 := by
  have h := acquire_release_round_trip pool3 ⟨3, [some ⟨1, true⟩, some ⟨2, true⟩], 1⟩
    ⟨some ⟨0, true⟩⟩ (by decide) (by decide)
  exact ⟨h.2.1, h.1⟩

/-! ## `drain()` -/

/-- With nothing on loan the loop of `drain()` pops every idle connection and
stops on the empty queue. -/
theorem drain_loop_no_loan (q : List ConnPtr) (hq : q.length < SIZE_MOD) :
    drain_loop 0 q = .ok [] := by
  induction q with
  | nil => simp [drain_loop, size_add]
  | cons conn rest ih =>
    have hrest : rest.length < SIZE_MOD := by
      simp only [List.length_cons] at hq
      omega
    have hne : size_add (conn :: rest).length 0 ≠ 0 := by
      rw [size_add_zero_right _ hq]
      simp
    simp only [drain_loop, hne, ne_eq, not_false_eq_true, if_true]
    exact ih hrest

/-- With nothing on loan `drain()` returns, leaving an empty queue,
`active_count_ == 0` and `connections` as it was. -/
theorem drain_no_loan (p : ConnectionPool) (hactive : p.active_count_ = 0)
    (hq : p.idle_connections_.length < SIZE_MOD) :
    drain p = .ok { connections := p.connections, idle_connections_ := [], active_count_ := 0 } := by
  unfold drain
  rw [hactive, drain_loop_no_loan _ hq]

/-- C5 (evaluation of the code): a pool of one connection is initialised, the
connection is acquired and the guard is still alive; `drain()` then meets the
loop guard `0 + 1 != 0` on the empty queue and calls `pop()` on it, which is
undefined behaviour. -/
theorem drain_with_guard_alive_pops_empty_queue :
    init factory_all_ok (ConnectionPool.construct 1) = .returned ⟨1, [some ⟨0, true⟩], 0⟩
      ∧ get_connection ⟨1, [some ⟨0, true⟩], 0⟩ = (.ok ⟨some ⟨0, true⟩⟩, ⟨1, [], 1⟩)
      ∧ drain ⟨1, [], 1⟩ = .error .pop_on_empty_queue := by
  decide

/-! ## `init()`: what every run keeps -/

/-- The fuel of `init_slot` never cuts the loop short: from index `i`, any fuel
of at least `retries - i` gives the result of exactly `retries - i`, and the
loop then stops on its own condition `i < retries`. -/
theorem init_slot_fuel (factory : Nat → ConnectAttempt) :
    ∀ (fuel i : Nat) (s : InitState), retries ≤ i + fuel →
      init_slot factory fuel i s = init_slot factory (retries - i) i s := by
  intro fuel
  induction fuel with
  | zero =>
    intro i s h
    have h0 : retries - i = 0 := by omega
    rw [h0]
  | succ fuel ih =>
    intro i s h
    by_cases hlt : i < retries
    · have hsplit : retries - i = (retries - (i + 1)) + 1 := by omega
      rw [hsplit]
      unfold init_slot
      simp only [hlt, if_true]
      cases hc : create_connection (factory s.calls) with
      | ok conn => rfl
      | error e =>
        cases e with
        | runtime_error m => rfl
        | other_failure m => rfl
        | broken_connection m =>
          simp only
          exact ih (i + 1) _ (by omega)
    · have h0 : retries - i = 0 := by omega
      rw [h0]
      simp [init_slot, hlt]

/-- Bookkeeping of one slot under any factory: `connections` and
`active_count_` are not written, and a slot that ends without an exception has
either pushed one connection or counted one failure. -/
theorem init_slot_accounts (factory : Nat → ConnectAttempt) :
    ∀ (fuel i : Nat) (s : InitState), i + fuel = retries → 0 < fuel →
      (init_slot factory fuel i s).2.pool.connections = s.pool.connections
        ∧ (init_slot factory fuel i s).2.pool.active_count_ = s.pool.active_count_
        ∧ ((init_slot factory fuel i s).1 = none →
            (init_slot factory fuel i s).2.pool.idle_connections_.length
                + (init_slot factory fuel i s).2.failed
              = s.pool.idle_connections_.length + s.failed + 1) := by
  intro fuel
  induction fuel with
  | zero => intro i s _ h; omega
  | succ fuel ih =>
    intro i s hi _
    have hlt : i < retries := by omega
    unfold init_slot
    simp only [hlt, if_true]
    cases hc : create_connection (factory s.calls) with
    | ok conn => simp; omega
    | error e =>
      cases e with
      | runtime_error m => simp
      | other_failure m => simp
      | broken_connection m =>
        simp only
        by_cases hfuel : fuel = 0
        · subst hfuel
          have hlast : i = retries - 1 := by omega
          simp [hlast, init_slot]
          omega
        · have hnot : ¬ i = retries - 1 := by omega
          simp only [hnot, if_false]
          have h := ih (i + 1) { s with calls := s.calls + 1 } (by omega) (by omega)
          exact h

/-- Bookkeeping of the slot loop under any factory. -/
theorem init_slots_accounts (factory : Nat → ConnectAttempt) :
    ∀ (n : Nat) (s : InitState),
      (init_slots factory n s).2.pool.connections = s.pool.connections
        ∧ (init_slots factory n s).2.pool.active_count_ = s.pool.active_count_
        ∧ ((init_slots factory n s).1 = none →
            (init_slots factory n s).2.pool.idle_connections_.length
                + (init_slots factory n s).2.failed
              = s.pool.idle_connections_.length + s.failed + n) := by
  intro n
  induction n with
  | zero => intro s; simp [init_slots]
  | succ n ih =>
    intro s
    have hslot := init_slot_accounts factory retries 0 s (by simp) (by decide)
    unfold init_slots
    cases hr : init_slot factory retries 0 s with
    | mk r s1 =>
      rw [hr] at hslot
      cases r with
      | some e => simpa using ⟨hslot.1, hslot.2.1⟩
      | none =>
        simp only
        have h := ih s1
        have h3 := hslot.2.2 rfl
        simp only at h3
        refine ⟨h.1.trans hslot.1, h.2.1.trans hslot.2.1, ?_⟩
        intro hnone
        have h4 := h.2.2 hnone
        omega

/-- After `init()` has returned on a freshly constructed pool: `connections`
is the requested number, nothing is on loan, the queue holds one connection
per slot that did not fail, and at least one slot did not fail. -/
theorem init_returned_facts (factory : Nat → ConnectAttempt) (n : Nat) (p : ConnectionPool)
    (h : init factory (ConnectionPool.construct n) = .returned p) :
    p.connections = n ∧ p.active_count_ = 0
      ∧ p = (init_run factory (ConnectionPool.construct n)).2.pool
      ∧ p.idle_connections_.length
          + (init_run factory (ConnectionPool.construct n)).2.failed = n
      ∧ (init_run factory (ConnectionPool.construct n)).2.failed ≠ n := by
  have hacc := init_slots_accounts factory n
    { pool := ConnectionPool.construct n, failed := 0, calls := 0 }
  unfold init at h
  unfold init_run at h ⊢
  simp only [ConnectionPool.construct] at h hacc ⊢
  cases hr : init_slots factory n { pool := ⟨n, [], 0⟩, failed := 0, calls := 0 } with
  | mk r s1 =>
    rw [hr] at h hacc
    cases r with
    | some e => simp at h
    | none =>
      simp only at h hacc
      by_cases hf : s1.failed = s1.pool.connections
      · simp [hf] at h
      · simp only [hf, if_false, InitResult.returned.injEq] at h
        subst h
        have h3 := hacc.2.2 trivial
        simp only [List.length_nil] at h3
        dsimp only
        refine ⟨hacc.1, hacc.2.1, rfl, by omega, ?_⟩
        rw [← hacc.1]
        exact hf

/-! ## Runs of client calls -/

/-- Every call allowed by the usage rules keeps `world_ok`. -/
theorem step_keeps_world_ok (w w1 : World) (c : Call) (h : world_ok w)
    (hs : step w c = some w1) : world_ok w1 := by
  obtain ⟨hb, hg, hc⟩ := h
  unfold registry_bounded at hb
  cases c with
  | get_connection =>
    simp only [step, get_connection] at hs
    cases hq : w.pool.idle_connections_ with
    | nil =>
      rw [hq] at hs
      simp only [Option.some.injEq] at hs
      subst hs
      exact ⟨hb, hg, hc⟩
    | cons conn rest =>
      rw [hq] at hs hb
      simp only [List.length_cons] at hb
      by_cases ha : conn_alive conn = true
      · simp only [ha, if_true, Option.some.injEq] at hs
        subst hs
        have hlt : w.pool.active_count_ < SIZE_MAX := by
          unfold SIZE_MAX
          unfold SIZE_MOD at hc
          omega
        refine ⟨?_, ?_, hc⟩
        · simp only [registry_bounded, size_succ_eq _ hlt]
          omega
        · dsimp only
          rw [size_succ_eq _ hlt, hg, List.length_cons]
      · have ha2 : conn_alive conn = false := by simpa using ha
        simp only [ha2, Bool.false_eq_true, if_false, protocol_con_failed,
          Option.some.injEq] at hs
        subst hs
        have hpos : 0 < w.pool.connections := by omega
        refine ⟨?_, hg, ?_⟩
        · simp only [registry_bounded, size_pred_eq _ hpos hc]
          omega
        · simp only [size_pred_eq _ hpos hc]
          omega
  | guard_destroyed i =>
    simp only [step] at hs
    cases hgi : w.guards.get? i with
    | none => rw [hgi] at hs; simp at hs
    | some g =>
      rw [hgi] at hs
      simp only [Option.some.injEq] at hs
      subst hs
      have hi : i < w.guards.length := by
        by_contra hcon
        have hnone : w.guards.get? i = none := List.get?_eq_none.mpr (by omega)
        rw [hnone] at hgi
        exact Option.noConfusion hgi
      have hpos : 0 < w.pool.active_count_ := by omega
      have hlt : w.pool.active_count_ < SIZE_MOD := by omega
      refine ⟨?_, ?_, hc⟩
      · simp only [registry_bounded, ConnectionGuard.destroy, size_pred_eq _ hpos hlt,
          List.length_append, List.length_singleton]
        omega
      · simp only [ConnectionGuard.destroy]
        rw [size_pred_eq _ hpos hlt, List.length_eraseIdx, hg]
        simp [hi]
  | drain =>
    simp only [step] at hs
    cases hgs : w.guards with
    | cons g gs => rw [hgs] at hs; simp at hs
    | nil =>
      rw [hgs] at hs hg
      simp only [List.length_nil] at hg
      have hq : w.pool.idle_connections_.length < SIZE_MOD := by omega
      rw [drain_no_loan _ hg hq] at hs
      simp only [List.isEmpty_nil, if_true, Option.some.injEq] at hs
      subst hs
      exact ⟨by simp [registry_bounded], rfl, hc⟩
  | increase_connection =>
    simp only [step, increase_connection, Option.some.injEq] at hs
    subst hs
    exact ⟨hb, hg, hc⟩
  | decrease_connection =>
    simp only [step, decrease_connection, Option.some.injEq] at hs
    subst hs
    exact ⟨hb, hg, hc⟩
  | connection_lost id =>
    simp only [step, Option.some.injEq] at hs
    subst hs
    refine ⟨?_, ?_, hc⟩
    · simp only [registry_bounded, List.length_map]
      exact hb
    · simp only [List.length_map]
      exact hg

/-- Every run allowed by the usage rules keeps `world_ok`. -/
theorem run_keeps_world_ok (calls : List Call) :
    ∀ (w w1 : World), world_ok w → run w calls = some w1 → world_ok w1 := by
  induction calls with
  | nil =>
    intro w w1 h hr
    simp only [run, Option.some.injEq] at hr
    subst hr
    exact h
  | cons c cs ih =>
    intro w w1 h hr
    simp only [run] at hr
    cases hst : step w c with
    | none => rw [hst] at hr; simp at hr
    | some w2 =>
      rw [hst] at hr
      exact ih w2 w1 (step_keeps_world_ok w w2 c h hst) hr

/-- C6: take a pool constructed with a `size_t` capacity on which `init()` has
returned, and any sequence of `get_connection()` calls (returning a guard,
timing out or finding a dead resource), destructions of live guards (each
guard once), `drain()` calls made while no guard is alive,
`increase_connection()` / `decrease_connection()` calls and connection losses;
in the state reached, `idle_connections_.size() + active_count_ <= connections`. -/
theorem registry_bounded_after_init (factory : Nat → ConnectAttempt) (n : Nat)
    (p0 : ConnectionPool) (calls : List Call) (w : World)
    (hn : n < SIZE_MOD)
    (hinit : init factory (ConnectionPool.construct n) = .returned p0)
    (hrun : run { pool := p0, guards := [] } calls = some w) :
    registry_bounded w.pool := by
  have hf := init_returned_facts factory n p0 hinit
  have h0 : world_ok { pool := p0, guards := [] } := by
    refine ⟨?_, ?_, ?_⟩
    · simp only [registry_bounded]
      omega
    · simp only [List.length_nil]
      exact hf.2.1
    · rw [hf.1]
      exact hn
  exact (run_keeps_world_ok calls _ w h0 hrun).1

/-- Witness of C6: the 3-resource pool; a guard is taken, connection 1 dies
while idle, the guard is released, the next call finds the dead front, a
resize call and a drain follow. -/
theorem registry_bounded_after_init_witness :
    registry_bounded (⟨2, [], 0⟩ : ConnectionPool) :=
  registry_bounded_after_init factory_all_ok 3 pool3
    [.get_connection, .connection_lost 1, .guard_destroyed 0, .get_connection,
      .increase_connection, .drain]
    ⟨⟨2, [], 0⟩, []⟩ (by decide) (by decide) (by decide)

/-! ## `init()`: capacity after a partial success -/

/-- C7 (counterexample): with requested capacity 2, a first slot that connects
at once and a second slot refused five times, `init()` returns with one idle
connection and `connections` still 2. -/
theorem init_partial_keeps_requested_capacity :
    init factory_one_slot_lost (ConnectionPool.construct 2) = .returned ⟨2, [some ⟨0, true⟩], 0⟩
      ∧ ¬ ((⟨2, [some ⟨0, true⟩], 0⟩ : ConnectionPool).connections
            = (⟨2, [some ⟨0, true⟩], 0⟩ : ConnectionPool).idle_connections_.length) := by
  decide

/-- C7 (amended): when `init()` returns on a pool constructed with requested
capacity `n`, under any factory, `active_count_` is 0 and `connections` is
still `n`; the queue holds `n - failed` connections, at least one, so
`idle_connections_.size() + active_count_ <= connections`, with equality
exactly when no slot failed. -/
theorem init_returned_state (factory : Nat → ConnectAttempt) (n : Nat) (p : ConnectionPool)
    (h : init factory (ConnectionPool.construct n) = .returned p) :
    p.active_count_ = 0 ∧ p.connections = n
      ∧ p.idle_connections_.length
          + (init_run factory (ConnectionPool.construct n)).2.failed = n
      ∧ 0 < p.idle_connections_.length
      ∧ p.idle_connections_.length + p.active_count_ ≤ p.connections
      ∧ (p.idle_connections_.length + p.active_count_ = p.connections
          ↔ (init_run factory (ConnectionPool.construct n)).2.failed = 0) := by
  obtain ⟨hc, ha, _, hsum, hne⟩ := init_returned_facts factory n p h
  rw [ha, hc]
  refine ⟨rfl, rfl, hsum, by omega, by omega, ?_⟩
  constructor <;> intro h1 <;> omega

/-- Witness of C7 (amended): requested capacity 2, one slot lost. -/
theorem init_returned_state_witness :
    (⟨2, [some ⟨0, true⟩], 0⟩ : ConnectionPool).connections = 2
      ∧ (⟨2, [some ⟨0, true⟩], 0⟩ : ConnectionPool).idle_connections_.length
          + (init_run factory_one_slot_lost (ConnectionPool.construct 2)).2.failed = 2 :=
  have h := init_returned_state factory_one_slot_lost 2 ⟨2, [some ⟨0, true⟩], 0⟩ (by decide)
  ⟨h.2.1, h.2.2.1⟩

/-! ## `init()`: every factory call succeeds -/

/-- A successful factory call returns the pointer recorded by `created`. -/
theorem create_connection_of_success (factory : Nat → ConnectAttempt) (k : Nat)
    (h : is_success (create_connection (factory k)) = true) :
    create_connection (factory k) = .ok (created factory k) := by
  unfold created
  cases hc : create_connection (factory k) with
  | ok conn => rfl
  | error e => rw [hc] at h; simp [is_success] at h

/-- A slot whose first attempt succeeds makes one call and pushes its result. -/
theorem init_slot_first_attempt (factory : Nat → ConnectAttempt) (s : InitState)
    (conn : ConnPtr) (h : create_connection (factory s.calls) = .ok conn) :
    init_slot factory retries 0 s =
      (none, { pool := { s.pool with
                 idle_connections_ := s.pool.idle_connections_ ++ [conn] },
               failed := s.failed, calls := s.calls + 1 }) := by
  simp [retries, init_slot, h]

/-- With every call succeeding, `n` slots make `n` calls and push their
results in call order. -/
theorem init_slots_all_success (factory : Nat → ConnectAttempt) :
    ∀ (n : Nat) (s : InitState),
      (∀ j, j < n → is_success (create_connection (factory (s.calls + j))) = true) →
      init_slots factory n s =
        (none, { pool := { s.pool with idle_connections_ :=
                   s.pool.idle_connections_ ++ (List.range' s.calls n).map (created factory) },
                 failed := s.failed, calls := s.calls + n }) := by
  intro n
  induction n with
  | zero => intro s _; simp [init_slots]
  | succ n ih =>
    intro s hok
    have h0 := create_connection_of_success factory s.calls (by simpa using hok 0 (by omega))
    have hrest : ∀ j, j < n →
        is_success (create_connection (factory (s.calls + 1 + j))) = true := by
      intro j hj
      have := hok (j + 1) (by omega)
      rwa [show s.calls + (j + 1) = s.calls + 1 + j by omega] at this
    unfold init_slots
    rw [init_slot_first_attempt factory s _ h0]
    simp only
    rw [ih _ hrest]
    simp [List.range'_succ, Nat.add_assoc, Nat.add_comm 1 n]

/-- C8: for a requested capacity `n >= 1`, when every factory call succeeds,
`init()` makes exactly `n` factory calls and returns with the queue holding the
`n` created connections in creation order, `active_count_ == 0` and
`connections == n`. -/
theorem init_all_success (factory : Nat → ConnectAttempt) (n : Nat) (hn : 1 ≤ n)
    (hok : ∀ k, k < n → is_success (create_connection (factory k)) = true) :
    init factory (ConnectionPool.construct n)
        = .returned { connections := n,
                      idle_connections_ := (List.range n).map (created factory),
                      active_count_ := 0 }
      ∧ init_calls factory (ConnectionPool.construct n) = n := by
  have hrun := init_slots_all_success factory n
    { pool := ConnectionPool.construct n, failed := 0, calls := 0 }
    (by intro j hj; simpa using hok j hj)
  have hne : ¬ (0 = n) := by omega
  constructor
  · unfold init init_run
    simp only [ConnectionPool.construct] at hrun ⊢
    rw [hrun]
    simp [hne, List.range_eq_range']
  · unfold init_calls init_run
    simp only [ConnectionPool.construct] at hrun ⊢
    rw [hrun]
    simp

/-- Witness of C8: `n = 3` gives three idle connections and active count 0. -/
theorem init_all_success_witness :
    init factory_all_ok (ConnectionPool.construct 3)
        = .returned ⟨3, (List.range 3).map (created factory_all_ok), 0⟩
      ∧ ((List.range 3).map (created factory_all_ok)).length = 3
      ∧ init_calls factory_all_ok (ConnectionPool.construct 3) = 3 :=
  have h := init_all_success factory_all_ok 3 (by decide) (fun _ _ => rfl)
  ⟨h.1, by decide, h.2⟩

/-! ## `init()`: the retry rule -/

/-- A transient failure is a thrown `pqxx::broken_connection`. -/
theorem transient_iff (r : Except Exn ConnPtr) :
    is_transient r = true ↔ ∃ m, r = .error (.broken_connection m) := by
  cases r with
  | ok conn => simp [is_transient]
  | error e => cases e <;> simp [is_transient]

/-- A slot whose attempts `1 .. k-1` fail with the transient class and whose
attempt `k` succeeds makes `k` calls and pushes the connection of attempt `k`;
`failed` is not touched. -/
theorem init_slot_success_at (factory : Nat → ConnectAttempt) :
    ∀ (fuel i : Nat) (s : InitState) (k : Nat) (conn : ConnPtr),
      i + fuel = retries → 1 ≤ k → k ≤ fuel →
      (∀ j, j + 1 < k → is_transient (create_connection (factory (s.calls + j))) = true) →
      create_connection (factory (s.calls + (k - 1))) = .ok conn →
      init_slot factory fuel i s =
        (none, { pool := { s.pool with
                   idle_connections_ := s.pool.idle_connections_ ++ [conn] },
                 failed := s.failed, calls := s.calls + k }) := by
  intro fuel
  induction fuel with
  | zero => intro i s k conn _ h1 h2; omega
  | succ fuel ih =>
    intro i s k conn hi h1 hk htr hok
    have hlt : i < retries := by omega
    by_cases hk1 : k = 1
    · subst hk1
      simp only [Nat.sub_self, Nat.add_zero] at hok
      simp [init_slot, hlt, hok]
    · obtain ⟨m, hm⟩ := (transient_iff _).mp (htr 0 (by omega))
      simp only [Nat.add_zero] at hm
      have hnot : ¬ i = retries - 1 := by omega
      have hih := ih (i + 1) { s with calls := s.calls + 1 } (k - 1) conn (by omega) (by omega)
        (by omega)
        (by
          intro j hj
          have := htr (j + 1) (by omega)
          rwa [show s.calls + (j + 1) = s.calls + 1 + j by omega] at this)
        (by
          rwa [show s.calls + 1 + (k - 1 - 1) = s.calls + (k - 1) by omega])
      unfold init_slot
      simp only [hlt, if_true, hm, hnot, if_false]
      rw [hih]
      simp only [Prod.mk.injEq, InitState.mk.injEq, true_and]
      omega

/-- A slot whose attempts all fail with the transient class makes all of them,
pushes nothing and counts one failure. -/
theorem init_slot_all_transient (factory : Nat → ConnectAttempt) :
    ∀ (fuel i : Nat) (s : InitState),
      i + fuel = retries → 0 < fuel →
      (∀ j, j < fuel → is_transient (create_connection (factory (s.calls + j))) = true) →
      init_slot factory fuel i s =
        (none, { pool := s.pool, failed := s.failed + 1, calls := s.calls + fuel }) := by
  intro fuel
  induction fuel with
  | zero => intro i s _ h; omega
  | succ fuel ih =>
    intro i s hi _ htr
    have hlt : i < retries := by omega
    obtain ⟨m, hm⟩ := (transient_iff _).mp (htr 0 (by omega))
    simp only [Nat.add_zero] at hm
    unfold init_slot
    simp only [hlt, if_true, hm]
    by_cases hfuel : fuel = 0
    · subst hfuel
      have hlast : i = retries - 1 := by omega
      simp [hlast, init_slot]
    · have hnot : ¬ i = retries - 1 := by omega
      simp only [hnot, if_false]
      rw [ih (i + 1) { s with calls := s.calls + 1 } (by omega) (by omega)
        (by
          intro j hj
          have := htr (j + 1) (by omega)
          rwa [show s.calls + (j + 1) = s.calls + 1 + j by omega] at this)]
      simp only [Prod.mk.injEq, InitState.mk.injEq, true_and]
      omega

/-- Reading of `first_success`: attempt `k` is the first successful one. -/
theorem first_success_some (factory : Nat → ConnectAttempt)
    (hf : only_transient_failures factory) :
    ∀ (allowed base k : Nat), first_success factory allowed base = some k →
      1 ≤ k ∧ k ≤ allowed
        ∧ (∀ j, j + 1 < k → is_transient (create_connection (factory (base + j))) = true)
        ∧ is_success (create_connection (factory (base + (k - 1)))) = true := by
  intro allowed
  induction allowed with
  | zero => intro base k h; simp [first_success] at h
  | succ allowed ih =>
    intro base k h
    unfold first_success at h
    by_cases hs : is_success (create_connection (factory base)) = true
    · simp only [hs, if_true, Option.some.injEq] at h
      subst h
      exact ⟨by omega, by omega, by intro j hj; omega, by simpa using hs⟩
    · have hs2 : is_success (create_connection (factory base)) = false := by simpa using hs
      simp only [hs2, Bool.false_eq_true, if_false, Option.map_eq_some'] at h
      obtain ⟨k1, hk1, hk⟩ := h
      subst hk
      obtain ⟨h1, h2, h3, h4⟩ := ih (base + 1) k1 hk1
      refine ⟨by omega, by omega, ?_, ?_⟩
      · intro j hj
        cases j with
        | zero =>
          rcases hf base with h | h
          · exact absurd h hs
          · simpa using h
        | succ j =>
          have := h3 j (by omega)
          rwa [show base + 1 + j = base + (j + 1) by omega] at this
      · rwa [show base + 1 + (k1 - 1) = base + (k1 + 1 - 1) by omega] at h4

/-- Reading of `first_success`: `none` means every allowed attempt fails. -/
theorem first_success_none (factory : Nat → ConnectAttempt)
    (hf : only_transient_failures factory) :
    ∀ (allowed base : Nat), first_success factory allowed base = none →
      ∀ j, j < allowed → is_transient (create_connection (factory (base + j))) = true := by
  intro allowed
  induction allowed with
  | zero => intro base _ j hj; omega
  | succ allowed ih =>
    intro base h j hj
    unfold first_success at h
    by_cases hs : is_success (create_connection (factory base)) = true
    · simp [hs] at h
    · have hs2 : is_success (create_connection (factory base)) = false := by simpa using hs
      simp only [hs2, Bool.false_eq_true, if_false, Option.map_eq_none'] at h
      cases j with
      | zero =>
        rcases hf base with h1 | h1
        · exact absurd h1 hs
        · simpa using h1
      | succ j =>
        have := ih (base + 1) h j (by omega)
        rwa [show base + 1 + j = base + (j + 1) by omega] at this

/-- One slot of `init()` against the retry rule as worded: no exception
leaves the slot, the calls made are `slot_calls`, and the slot either pushes
one connection or counts one failure according to `first_success`. -/
theorem init_slot_refines (factory : Nat → ConnectAttempt)
    (hf : only_transient_failures factory) (s : InitState) :
    ∃ s1, init_slot factory retries 0 s = (none, s1)
      ∧ s1.calls = s.calls + slot_calls factory s.calls
      ∧ s1.pool.connections = s.pool.connections
      ∧ s1.pool.active_count_ = s.pool.active_count_
      ∧ s1.pool.idle_connections_.length = s.pool.idle_connections_.length
          + (if (first_success factory retries s.calls).isSome then 1 else 0)
      ∧ s1.failed = s.failed
          + (if (first_success factory retries s.calls).isSome then 0 else 1)
      ∧ slot_calls factory s.calls ≤ retries := by
  unfold slot_calls
  cases hfs : first_success factory retries s.calls with
  | none =>
    have htr := first_success_none factory hf retries s.calls hfs
    have h := init_slot_all_transient factory retries 0 s (by simp) (by decide) htr
    exact ⟨_, h, rfl, rfl, rfl, by simp, by simp, by simp⟩
  | some k =>
    obtain ⟨h1, h2, h3, h4⟩ := first_success_some factory hf retries s.calls k hfs
    have hok := create_connection_of_success factory _ h4
    have h := init_slot_success_at factory retries 0 s k _ (by simp) h1 h2 h3 hok
    exact ⟨_, h, rfl, rfl, rfl, by simp, by simp, by simpa using h2⟩

/-- The slot loop of `init()` against the retry rule as worded. -/
theorem init_slots_refines (factory : Nat → ConnectAttempt)
    (hf : only_transient_failures factory) :
    ∀ (n : Nat) (s : InitState),
      ∃ s1, init_slots factory n s = (none, s1)
        ∧ s1.calls = s.calls + slots_calls factory n s.calls
        ∧ s1.pool.connections = s.pool.connections
        ∧ s1.pool.active_count_ = s.pool.active_count_
        ∧ s1.pool.idle_connections_.length
            = s.pool.idle_connections_.length + slots_succeeded factory n s.calls
        ∧ s1.failed = s.failed + slots_exhausted factory n s.calls := by
  intro n
  induction n with
  | zero => intro s; exact ⟨s, rfl, rfl, rfl, rfl, rfl, rfl⟩
  | succ n ih =>
    intro s
    obtain ⟨s1, hrun, hcalls, hconn, hact, hlen, hfail, _⟩ := init_slot_refines factory hf s
    obtain ⟨s2, hrun2, hcalls2, hconn2, hact2, hlen2, hfail2⟩ := ih s1
    refine ⟨s2, ?_, ?_, hconn2.trans hconn, hact2.trans hact, ?_, ?_⟩
    · unfold init_slots
      rw [hrun]
      exact hrun2
    · rw [hcalls2, hcalls]
      simp only [slots_calls]
      omega
    · rw [hlen2, hlen, hcalls]
      simp only [slots_succeeded]
      omega
    · rw [hfail2, hfail, hcalls]
      simp only [slots_exhausted]
      omega

/-- A slot makes at most `retries` calls. -/
theorem slot_calls_le (factory : Nat → ConnectAttempt)
    (hf : only_transient_failures factory) (base : Nat) :
    slot_calls factory base ≤ retries := by
  obtain ⟨_, _, _, _, _, _, _, h⟩ :=
    init_slot_refines factory hf { pool := ⟨0, [], 0⟩, failed := 0, calls := base }
  exact h

/-- The `n` slots make at most `retries * n` calls in all. -/
theorem slots_calls_le (factory : Nat → ConnectAttempt)
    (hf : only_transient_failures factory) :
    ∀ (n base : Nat), slots_calls factory n base ≤ retries * n := by
  intro n
  induction n with
  | zero => intro base; simp [slots_calls]
  | succ n ih =>
    intro base
    have h1 := slot_calls_le factory hf base
    have h2 := ih (base + slot_calls factory base)
    simp only [slots_calls]
    rw [Nat.mul_succ]
    omega

/-- Each slot either succeeds or exhausts its attempts. -/
theorem slots_succeeded_add_exhausted (factory : Nat → ConnectAttempt) :
    ∀ (n base : Nat), slots_succeeded factory n base + slots_exhausted factory n base = n := by
  intro n
  induction n with
  | zero => intro base; rfl
  | succ n ih =>
    intro base
    have h := ih (base + slot_calls factory base)
    simp only [slots_succeeded, slots_exhausted]
    split <;> omega

/-- C9: under a factory whose calls either succeed or fail with the transient
`pqxx::broken_connection`: a slot whose first success is on attempt `k <= 5`
makes exactly `k` calls and pushes exactly one connection; a slot failing 5
times in a row makes exactly 5 calls and pushes none (it counts one failure);
over the `n` slots no exception leaves `init()`, at most `5 * n` calls are
made, and the idle queue ends with as many connections as slots succeeded
within 5 attempts. -/
theorem init_retry_rule (factory : Nat → ConnectAttempt)
    (hf : only_transient_failures factory) :
    (∀ (s : InitState) (k : Nat) (conn : ConnPtr), 1 ≤ k → k ≤ 5 →
        (∀ j, j + 1 < k →
          is_transient (create_connection (factory (s.calls + j))) = true) →
        create_connection (factory (s.calls + (k - 1))) = .ok conn →
        init_slot factory retries 0 s =
          (none, { pool := { s.pool with
                     idle_connections_ := s.pool.idle_connections_ ++ [conn] },
                   failed := s.failed, calls := s.calls + k }))
      ∧ (∀ (s : InitState),
          (∀ j, j < 5 → is_transient (create_connection (factory (s.calls + j))) = true) →
          init_slot factory retries 0 s =
            (none, { pool := s.pool, failed := s.failed + 1, calls := s.calls + 5 }))
      ∧ (∀ (n : Nat),
          (init_run factory (ConnectionPool.construct n)).1 = none
            ∧ init_calls factory (ConnectionPool.construct n) ≤ 5 * n
            ∧ (init_run factory (ConnectionPool.construct n)).2.pool.idle_connections_.length
                = slots_succeeded factory n 0) := by
  refine ⟨?_, ?_, ?_⟩
  · intro s k conn h1 h2 htr hok
    exact init_slot_success_at factory retries 0 s k conn (by simp) h1 h2 htr hok
  · intro s htr
    exact init_slot_all_transient factory retries 0 s (by simp) (by decide) htr
  · intro n
    obtain ⟨s1, hrun, hcalls, _, _, hlen, _⟩ := init_slots_refines factory hf n
      { pool := ConnectionPool.construct n, failed := 0, calls := 0 }
    have hle := slots_calls_le factory hf n 0
    unfold init_calls init_run
    simp only [ConnectionPool.construct] at hrun hcalls hlen ⊢
    rw [hrun]
    simp only [retries] at hle
    refine ⟨rfl, ?_, ?_⟩
    · simp only [hcalls]
      omega
    · simp only [hlen, List.length_nil]
      omega

/-- Witness of C9: two slots, the first connects at once, the second is
refused five times: six calls, one idle connection. -/
theorem init_retry_rule_witness :
    init_calls factory_one_slot_lost (ConnectionPool.construct 2) ≤ 5 * 2
      ∧ (init_run factory_one_slot_lost
          (ConnectionPool.construct 2)).2.pool.idle_connections_.length
            = slots_succeeded factory_one_slot_lost 2 0
      ∧ init_calls factory_one_slot_lost (ConnectionPool.construct 2) = 6
      ∧ slots_succeeded factory_one_slot_lost 2 0 = 1 :=
  have h := (init_retry_rule factory_one_slot_lost (by
    intro k
    unfold factory_one_slot_lost
    by_cases hk : 1 ≤ k ∧ k ≤ 5
    · right
      simp [hk, create_connection, is_transient]
    · left
      simp [hk, create_connection, is_success])).2.2 2
  ⟨h.2.1, h.2.2, by decide, by decide⟩

/-- C10: under a factory whose calls either succeed or fail with the transient
class, `init()` on a pool constructed with requested capacity `n` ends in
`exit(-1)` exactly when all `n` slots exhausted their 5 attempts; otherwise (at
least one slot succeeded) it returns, with the partially filled queue: one
connection per slot that succeeded, at most `n`. -/
theorem init_fatal_iff_all_slots_exhausted (factory : Nat → ConnectAttempt)
    (hf : only_transient_failures factory) (n : Nat) :
    ((∃ p, init factory (ConnectionPool.construct n) = .exited (-1) p)
        ↔ slots_exhausted factory n 0 = n)
      ∧ (0 < slots_succeeded factory n 0 →
          ∃ p, init factory (ConnectionPool.construct n) = .returned p
            ∧ p.idle_connections_.length = slots_succeeded factory n 0
            ∧ p.idle_connections_.length ≤ n
            ∧ p.connections = n ∧ p.active_count_ = 0) := by
  obtain ⟨s1, hrun, _, hconn, hact, hlen, hfail⟩ := init_slots_refines factory hf n
    { pool := ConnectionPool.construct n, failed := 0, calls := 0 }
  have hsum := slots_succeeded_add_exhausted factory n 0
  simp only [ConnectionPool.construct, List.length_nil, Nat.zero_add] at hrun hconn hact hlen hfail
  unfold init init_run
  simp only [ConnectionPool.construct]
  rw [hrun]
  simp only [hfail, hconn]
  constructor
  · constructor
    · rintro ⟨p, hp⟩
      by_cases hex : slots_exhausted factory n 0 = n
      · exact hex
      · simp [hex] at hp
    · intro hex
      exact ⟨s1.pool, by simp [hex]⟩
  · intro hpos
    have hex : ¬ slots_exhausted factory n 0 = n := by omega
    exact ⟨s1.pool, by simp [hex], hlen, by omega, hconn, hact⟩

/-- Witness of C10: of two slots one is lost, and `init()` returns with one
idle connection. -/
theorem init_fatal_iff_all_slots_exhausted_witness :
    ∃ p, init factory_one_slot_lost (ConnectionPool.construct 2) = .returned p
      ∧ p.idle_connections_.length = slots_succeeded factory_one_slot_lost 2 0
      ∧ p.idle_connections_.length ≤ 2
      ∧ p.connections = 2 ∧ p.active_count_ = 0 :=
  (init_fatal_iff_all_slots_exhausted factory_one_slot_lost (by
    intro k
    unfold factory_one_slot_lost
    by_cases hk : 1 ≤ k ∧ k ≤ 5
    · right
      simp [hk, create_connection, is_transient]
    · left
      simp [hk, create_connection, is_success]) 2).2 (by decide)

/-! ## `init()` with requested capacity 0 -/

/-- C19: on a pool constructed with requested capacity 0, `init()` makes no
factory call (the slot loop body never runs), `failed` stays 0, the test
`failed == connections` holds and the process ends in `exit(-1)`. -/
theorem init_zero_capacity_exits (factory : Nat → ConnectAttempt) :
    init_calls factory (ConnectionPool.construct 0) = 0
      ∧ (init_run factory (ConnectionPool.construct 0)).2.failed = 0
      ∧ (init_run factory (ConnectionPool.construct 0)).2.failed
          = (init_run factory (ConnectionPool.construct 0)).2.pool.connections
      ∧ init factory (ConnectionPool.construct 0)
          = .exited (-1) (ConnectionPool.construct 0) := by
  refine ⟨rfl, rfl, rfl, rfl⟩

/-! ## `~ConnectionGuard()` -/

/-- C12: with at least one resource on loan (`active_count_` a `size_t` that
is not 0), destroying a guard puts exactly the held resource at the back of
the idle queue, behind everything that was idle, makes `active_count_` one
less and leaves `connections` and the rest of the queue as they were. -/
theorem guard_destroy_returns_resource (g : ConnectionGuard) (p : ConnectionPool)
    (hpos : 0 < p.active_count_) (hsize : p.active_count_ < SIZE_MOD) :
    g.destroy p =
      { connections := p.connections,
        idle_connections_ := p.idle_connections_ ++ [g.conn_],
        active_count_ := p.active_count_ - 1 } := by
  unfold ConnectionGuard.destroy
  simp only
  rw [size_pred_eq _ hpos hsize]

/-- Witness of C12: the 3-resource pool with connection 0 on loan. -/
theorem guard_destroy_returns_resource_witness :
    (⟨some ⟨0, true⟩⟩ : ConnectionGuard).destroy ⟨3, [some ⟨1, true⟩, some ⟨2, true⟩], 1⟩
      = ⟨3, [some ⟨1, true⟩, some ⟨2, true⟩, some ⟨0, true⟩], 0⟩ :=
  guard_destroy_returns_resource ⟨some ⟨0, true⟩⟩ ⟨3, [some ⟨1, true⟩, some ⟨2, true⟩], 1⟩
    (by decide) (by decide)

/-! ## `drain()` and the capacity -/

/-- C14 (counterexample): the 3-resource pool with nothing on loan; `drain()`
returns with an empty queue and `connections` still 3. -/
theorem drain_keeps_capacity_three :
    drain pool3 = .ok ⟨3, [], 0⟩ ∧ ¬ ((⟨3, [], 0⟩ : ConnectionPool).connections = 0) := by
  decide

/-- C14 (amended): with no resource on loan, `drain()` returns with an empty
queue and `active_count_ == 0`, and `connections` keeps its value. -/
theorem drain_clears_idle_keeps_capacity (p : ConnectionPool)
    (hactive : p.active_count_ = 0) (hq : p.idle_connections_.length < SIZE_MOD) :
    ∃ p1, drain p = .ok p1 ∧ p1.idle_connections_.length = 0 ∧ p1.active_count_ = 0
      ∧ p1.connections = p.connections :=
  ⟨_, drain_no_loan p hactive hq, rfl, rfl, rfl⟩

/-- Witness of C14 (amended): the 3-resource pool. -/
theorem drain_clears_idle_keeps_capacity_witness :
    ∃ p1, drain pool3 = .ok p1 ∧ p1.idle_connections_.length = 0 ∧ p1.active_count_ = 0
      ∧ p1.connections = 3 :=
  drain_clears_idle_keeps_capacity pool3 rfl (by decide)

/-! ## The resize functions -/

/-- C15 (evaluation of the code): on a pool of capacity 2 with two idle
connections, `decrease_connection()` returns `true` and leaves `connections`
at 2, and so does the following `increase_connection()`. -/
theorem decrease_connection_keeps_capacity :
    (decrease_connection ⟨2, [some ⟨0, true⟩, some ⟨1, true⟩], 0⟩).2.connections = 2
      ∧ (increase_connection
          (decrease_connection ⟨2, [some ⟨0, true⟩, some ⟨1, true⟩], 0⟩).2).2.connections = 2 := by
  decide

/-- C16 (evaluation of the code): on a pool of capacity 1 whose connection is
on loan, `increase_connection()` returns `true` and changes nothing, and the
next `get_connection()` times out. -/
theorem increase_connection_adds_nothing :
    increase_connection ⟨1, [], 1⟩ = (true, ⟨1, [], 1⟩)
      ∧ get_connection (increase_connection ⟨1, [], 1⟩).2
          = (.error (.runtime_error "Connection pool timeout"), ⟨1, [], 1⟩) := by
  decide

/-! ## The turns of the loop of `drain()` -/

/-- The pushes of `len + 1` calls: the result of the first call, then the
pushes of the other `len`. -/
theorem pushed_by_calls_succ (factory : Nat → ConnectAttempt) (start len : Nat) :
    pushed_by_calls factory start (len + 1)
      = (call_result factory start).toList ++ pushed_by_calls factory (start + 1) len := by
  unfold pushed_by_calls
  rw [List.range'_succ, List.filterMap_cons]
  cases call_result factory start <;> simp

/-- The pushes of consecutive stretches of calls concatenate. -/
theorem pushed_by_calls_append (factory : Nat → ConnectAttempt) (start m n : Nat) :
    pushed_by_calls factory start m ++ pushed_by_calls factory (start + m) n
      = pushed_by_calls factory start (m + n) := by
  unfold pushed_by_calls
  rw [← List.filterMap_append, List.range'_append_1, Nat.add_comm n m]

/-- A failed call pushes nothing. -/
theorem call_result_of_error (factory : Nat → ConnectAttempt) (k : Nat) (e : Exn)
    (h : create_connection (factory k) = .error e) : call_result factory k = none := by
  unfold call_result
  rw [h]

/-- An empty stretch. -/
theorem traced_refl (factory : Nat → ConnectAttempt) (s : InitState) :
    traced factory s (none, s) :=
  ⟨0, rfl, rfl, rfl, by simp [pushed_by_calls], by intro j e hj; omega⟩

/-- A stretch that follows one transient failure. -/
theorem traced_after_transient (factory : Nat → ConnectAttempt) (s s2 : InitState)
    (r : Option Exn × InitState) (m : String)
    (hc : create_connection (factory s.calls) = .error (.broken_connection m))
    (hcalls : s2.calls = s.calls + 1) (hpool : s2.pool = s.pool)
    (h : traced factory s2 r) : traced factory s r := by
  obtain ⟨len, h1, h2, h3, h4, h5⟩ := h
  refine ⟨len + 1, by omega, by rw [h2, hpool], by rw [h3, hpool], ?_, ?_⟩
  · rw [h4, hpool, hcalls, pushed_by_calls_succ, call_result_of_error factory _ _ hc]
    rfl
  · intro j e hj hce hnt
    cases j with
    | zero =>
      simp only [Nat.add_zero] at hce
      rw [hc] at hce
      injection hce with he
      subst he
      simp [is_transient] at hnt
    | succ j =>
      have hce2 : create_connection (factory (s2.calls + j)) = .error e := by
        rw [hcalls, show s.calls + 1 + j = s.calls + (j + 1) by omega]
        exact hce
      obtain ⟨h6, h7⟩ := h5 j e (by omega) hce2 hnt
      exact ⟨by omega, h7⟩

/-- Two stretches in a row, the first one ending without an exception. -/
theorem traced_trans (factory : Nat → ConnectAttempt) (s s1 : InitState)
    (r : Option Exn × InitState) (h1 : traced factory s (none, s1))
    (h2 : traced factory s1 r) : traced factory s r := by
  obtain ⟨l1, a1, a2, a3, a4, a5⟩ := h1
  obtain ⟨l2, b1, b2, b3, b4, b5⟩ := h2
  simp only at a1 a2 a3 a4 a5
  refine ⟨l1 + l2, by omega, by rw [b2, a2], by rw [b3, a3], ?_, ?_⟩
  · rw [b4, a4, a1, List.append_assoc, pushed_by_calls_append]
  · intro j e hj hce hnt
    by_cases hlt : j < l1
    · have := (a5 j e hlt hce hnt).2
      exact Option.noConfusion this
    · have hce2 : create_connection (factory (s1.calls + (j - l1))) = .error e := by
        rw [a1, show s.calls + l1 + (j - l1) = s.calls + j by omega]
        exact hce
      obtain ⟨h6, h7⟩ := b5 (j - l1) e (by omega) hce2 hnt
      exact ⟨by omega, h7⟩

/-- Every run of the inner loop of `init()` is a traced stretch. -/
theorem init_slot_traced (factory : Nat → ConnectAttempt) :
    ∀ (fuel i : Nat) (s : InitState), traced factory s (init_slot factory fuel i s) := by
  intro fuel
  induction fuel with
  | zero => intro i s; exact traced_refl factory s
  | succ fuel ih =>
    intro i s
    unfold init_slot
    by_cases hlt : i < retries
    · simp only [hlt, if_true]
      cases hc : create_connection (factory s.calls) with
      | ok conn =>
        refine ⟨1, rfl, rfl, rfl, ?_, ?_⟩
        · simp [pushed_by_calls, call_result, hc]
        · intro j e hj hce hnt
          have hj0 : j = 0 := by omega
          subst hj0
          simp only [Nat.add_zero] at hce
          rw [hc] at hce
          exact Except.noConfusion hce
      | error e0 =>
        have hother : ∀ e1 : Exn, create_connection (factory s.calls) = .error e1 →
            traced factory s (some e1, { s with calls := s.calls + 1 }) := by
          intro e1 hc1
          refine ⟨1, rfl, rfl, rfl, ?_, ?_⟩
          · simp [pushed_by_calls, call_result, hc1]
          · intro j e hj hce hnt
            have hj0 : j = 0 := by omega
            subst hj0
            simp only [Nat.add_zero] at hce
            rw [hc1] at hce
            injection hce with he
            subst he
            exact ⟨rfl, rfl⟩
        cases e0 with
        | runtime_error m => exact hother _ hc
        | other_failure m => exact hother _ hc
        | broken_connection m =>
          simp only
          by_cases hlast : i = retries - 1
          · simp only [hlast, if_true]
            exact traced_after_transient factory s
              { pool := s.pool, failed := s.failed + 1, calls := s.calls + 1 } _ m hc rfl rfl
              (ih _ _)
          · simp only [hlast, if_false]
            exact traced_after_transient factory s
              { pool := s.pool, failed := s.failed, calls := s.calls + 1 } _ m hc rfl rfl
              (ih _ _)
    · simp only [hlt, if_false]
      exact traced_refl factory s

/-- Every run of the slot loop of `init()` is a traced stretch. -/
theorem init_slots_traced (factory : Nat → ConnectAttempt) :
    ∀ (n : Nat) (s : InitState), traced factory s (init_slots factory n s) := by
  intro n
  induction n with
  | zero => intro s; exact traced_refl factory s
  | succ n ih =>
    intro s
    have hslot := init_slot_traced factory retries 0 s
    unfold init_slots
    cases hr : init_slot factory retries 0 s with
    | mk r s1 =>
      rw [hr] at hslot
      cases r with
      | some e => exact hslot
      | none => exact traced_trans factory s s1 _ hslot (ih s1)

/-- C11: when a factory call made by `init()` (call number `j`, counted from
0) fails with an exception outside the transient `pqxx::broken_connection`
class, that call is the last one made (no retry of the slot, no later slot),
`init()` ends by throwing that same exception, and the idle queue holds what
the earlier calls returned, in call order. -/
theorem init_propagates_other_failure (factory : Nat → ConnectAttempt) (n j : Nat) (e : Exn)
    (hmade : j < init_calls factory (ConnectionPool.construct n))
    (hfail : create_connection (factory j) = .error e)
    (hclass : is_transient (.error e) = false) :
    init_calls factory (ConnectionPool.construct n) = j + 1
      ∧ init factory (ConnectionPool.construct n)
          = .threw e { connections := n,
                       idle_connections_ := pushed_by_calls factory 0 j,
                       active_count_ := 0 } := by
  have htr := init_slots_traced factory n { pool := ⟨n, [], 0⟩, failed := 0, calls := 0 }
  unfold init_calls init_run at hmade ⊢
  unfold init init_run
  simp only [ConnectionPool.construct] at hmade ⊢
  cases hr : init_slots factory n { pool := ⟨n, [], 0⟩, failed := 0, calls := 0 } with
  | mk r s1 =>
    rw [hr] at htr hmade
    obtain ⟨len, h1, h2, h3, h4, h5⟩ := htr
    simp only [Nat.zero_add, List.nil_append] at h1 h2 h3 h4 h5 hmade ⊢
    obtain ⟨h6, h7⟩ := h5 j e (by omega) hfail hclass
    subst h7
    refine ⟨by omega, ?_⟩
    have hidle : s1.pool.idle_connections_ = pushed_by_calls factory 0 j := by
      rw [h4, ← h6, ← pushed_by_calls_append factory 0 j 1]
      simp [pushed_by_calls, call_result_of_error factory j e hfail]
    cases hp : s1.pool with
    | mk c q a =>
      rw [hp] at h2 h3 hidle
      simp only at h2 h3 hidle
      simp only [hp, h2, h3, hidle]

/-- Witness of C11: three slots; call 0 connects, call 1 is refused, call 2
fails in `prepare`: `init()` throws that failure after 3 calls, with the first
connection in the queue. -/
theorem init_propagates_other_failure_witness :
    init_calls factory_prepare_fails (ConnectionPool.construct 3) = 2 + 1
      ∧ init factory_prepare_fails (ConnectionPool.construct 3)
          = .threw (.other_failure "prepare")
              { connections := 3,
                idle_connections_ := pushed_by_calls factory_prepare_fails 0 2,
                active_count_ := 0 } :=
  init_propagates_other_failure factory_prepare_fails 3 2 (.other_failure "prepare")
    (by decide) (by decide) (by decide)

/-! ## Exclusive ownership -/

/-- Closing a connection does not change which resource a pointer refers to. -/
theorem conn_id_close_id (id : Nat) (conn : ConnPtr) :
    conn_id (close_id id conn) = conn_id conn := by
  cases conn with
  | none => rfl
  | some c =>
    simp only [close_id]
    by_cases hc : c.id = id
    · simp [hc, conn_id]
    · simp [hc]

/-- A list is its `i`-th element followed by the others, up to order. -/
theorem perm_cons_eraseIdx {α : Type} :
    ∀ (l : List α) (i : Nat) (g : α), l.get? i = some g → l.Perm (g :: l.eraseIdx i) := by
  intro l
  induction l with
  | nil => intro i g h; simp at h
  | cons a l ih =>
    intro i g h
    cases i with
    | zero =>
      simp only [List.get?_cons_zero, Option.some.injEq] at h
      subst h
      exact List.Perm.refl _
    | succ i =>
      simp only [List.get?_cons_succ] at h
      simp only [List.eraseIdx_cons_succ]
      exact ((ih i g h).cons a).trans (List.Perm.swap g a _)

/-- The queue left by the loop of `drain()` is part of the queue it started
with. -/
theorem drain_loop_sublist (a : Nat) :
    ∀ (q q1 : List ConnPtr), drain_loop a q = .ok q1 → q1.Sublist q := by
  intro q
  induction q with
  | nil =>
    intro q1 h
    unfold drain_loop at h
    split at h
    · exact Except.noConfusion h
    · injection h with h
      subst h
      exact List.Sublist.refl _
  | cons conn rest ih =>
    intro q1 h
    unfold drain_loop at h
    split at h
    · exact (ih q1 h).cons conn
    · injection h with h
      subst h
      exact List.Sublist.refl _

/-- Every call allowed by the usage rules keeps ownership exclusive. -/
theorem step_keeps_exclusive (w w1 : World) (c : Call) (h : exclusive w)
    (hs : step w c = some w1) : exclusive w1 := by
  unfold exclusive owned at h ⊢
  cases c with
  | get_connection =>
    simp only [step, get_connection] at hs
    cases hq : w.pool.idle_connections_ with
    | nil =>
      rw [hq] at hs
      simp only [Option.some.injEq] at hs
      subst hs
      exact h
    | cons conn rest =>
      rw [hq] at hs h
      by_cases ha : conn_alive conn = true
      · simp only [ha, if_true, Option.some.injEq] at hs
        subst hs
        simp only [List.map_cons]
        have hperm : (rest ++ conn :: w.guards.map ConnectionGuard.conn_).Perm
            (conn :: rest ++ w.guards.map ConnectionGuard.conn_) := List.perm_middle
        exact (hperm.map conn_id).nodup_iff.mpr h
      · have ha2 : conn_alive conn = false := by simpa using ha
        simp only [ha2, Bool.false_eq_true, if_false, protocol_con_failed,
          Option.some.injEq] at hs
        subst hs
        simp only [List.cons_append, List.map_cons] at h
        exact (List.nodup_cons.mp h).2
  | guard_destroyed i =>
    simp only [step] at hs
    cases hgi : w.guards.get? i with
    | none => rw [hgi] at hs; simp at hs
    | some g =>
      rw [hgi] at hs
      simp only [Option.some.injEq] at hs
      subst hs
      have hperm := (perm_cons_eraseIdx w.guards i g hgi).map ConnectionGuard.conn_
      simp only [List.map_cons] at hperm
      have hperm2 : (w.pool.idle_connections_ ++ [g.conn_]
            ++ (w.guards.eraseIdx i).map ConnectionGuard.conn_).Perm
          (w.pool.idle_connections_ ++ w.guards.map ConnectionGuard.conn_) := by
        rw [List.append_assoc]
        exact List.Perm.append_left _ hperm.symm
      simp only [ConnectionGuard.destroy]
      exact (hperm2.map conn_id).nodup_iff.mpr h
  | drain =>
    simp only [step] at hs
    cases hgs : w.guards with
    | cons g gs => rw [hgs] at hs; simp at hs
    | nil =>
      rw [hgs] at hs h
      simp only [List.isEmpty_nil, if_true, drain] at hs
      cases hl : drain_loop w.pool.active_count_ w.pool.idle_connections_ with
      | error f => rw [hl] at hs; simp at hs
      | ok q1 =>
        rw [hl] at hs
        simp only [Option.some.injEq] at hs
        subst hs
        have hsub := drain_loop_sublist _ _ _ hl
        simp only [List.map_nil, List.append_nil] at h ⊢
        exact h.sublist (hsub.map conn_id)
  | increase_connection =>
    simp only [step, increase_connection, Option.some.injEq] at hs
    subst hs
    exact h
  | decrease_connection =>
    simp only [step, decrease_connection, Option.some.injEq] at hs
    subst hs
    exact h
  | connection_lost id =>
    simp only [step, Option.some.injEq] at hs
    subst hs
    have heq : (w.pool.idle_connections_.map (close_id id)
          ++ (w.guards.map (fun g => ({ conn_ := close_id id g.conn_ } : ConnectionGuard))).map
              ConnectionGuard.conn_).map conn_id
        = (w.pool.idle_connections_ ++ w.guards.map ConnectionGuard.conn_).map conn_id := by
      simp [List.map_append, List.map_map, Function.comp_def, conn_id_close_id]
    simp only
    rw [heq]
    exact h

/-- Every run allowed by the usage rules keeps ownership exclusive. -/
theorem run_keeps_exclusive (calls : List Call) :
    ∀ (w w1 : World), exclusive w → run w calls = some w1 → exclusive w1 := by
  induction calls with
  | nil =>
    intro w w1 h hr
    simp only [run, Option.some.injEq] at hr
    subst hr
    exact h
  | cons c cs ih =>
    intro w w1 h hr
    simp only [run] at hr
    cases hst : step w c with
    | none => rw [hst] at hr; simp at hr
    | some w2 =>
      rw [hst] at hr
      exact ih w2 w1 (step_keeps_exclusive w w2 c h hst) hr

/-- The pointer returned by `create_connection()` is never null. -/
theorem create_connection_not_null (a : ConnectAttempt) (conn : ConnPtr)
    (h : create_connection a = .ok conn) : ∃ c, conn = some c := by
  unfold create_connection at h
  cases a with
  | ctor_throws e => exact Except.noConfusion h
  | constructed c prep =>
    simp only at h
    split at h
    · exact Except.noConfusion h
    · cases prep with
      | some e => exact Except.noConfusion h
      | none =>
        injection h with h
        exact ⟨c, h.symm⟩

/-- With a factory of pairwise distinct resources, the connections pushed by a
stretch of calls are pairwise distinct resources. -/
theorem pushed_by_calls_nodup (factory : Nat → ConnectAttempt)
    (hdist : distinct_resources factory) (start len : Nat) :
    ((pushed_by_calls factory start len).map conn_id).Nodup := by
  unfold pushed_by_calls
  rw [List.map_filterMap]
  refine List.Nodup.filterMap ?_ (List.nodup_range' start len)
  intro j k b hj hk
  simp only [Option.mem_def, Option.map_eq_some'] at hj hk
  obtain ⟨pj, hpj, hbj⟩ := hj
  obtain ⟨pk, hpk, hbk⟩ := hk
  have hcj : create_connection (factory j) = .ok pj := by
    unfold call_result at hpj
    cases hc : create_connection (factory j) with
    | ok conn => rw [hc] at hpj; simp only [Option.some.injEq] at hpj; rw [hpj]
    | error e => rw [hc] at hpj; simp at hpj
  have hck : create_connection (factory k) = .ok pk := by
    unfold call_result at hpk
    cases hc : create_connection (factory k) with
    | ok conn => rw [hc] at hpk; simp only [Option.some.injEq] at hpk; rw [hpk]
    | error e => rw [hc] at hpk; simp at hpk
  obtain ⟨cj, hcj2⟩ := create_connection_not_null _ _ hcj
  obtain ⟨ck, hck2⟩ := create_connection_not_null _ _ hck
  subst hcj2
  subst hck2
  have hid : cj.id = ck.id := by
    simp only [conn_id, Option.map_some'] at hbj hbk
    rw [← hbk] at hbj
    exact Option.some.inj hbj
  exact hdist j k cj ck hcj hck hid

/-- C13: with a factory of pairwise distinct resources, in every state reached
from a pool on which `init()` has returned by `get_connection()` calls,
destructions of live guards (each guard once), `drain()` calls made while no
guard is alive (and resize calls and connection losses), no resource occurs
twice in the idle queue, no resource held by a live guard is in the idle queue,
and no two live guards hold the same resource. -/
theorem exclusive_ownership_after_init (factory : Nat → ConnectAttempt) (n : Nat)
    (p0 : ConnectionPool) (calls : List Call) (w : World)
    (hdist : distinct_resources factory)
    (hinit : init factory (ConnectionPool.construct n) = .returned p0)
    (hrun : run { pool := p0, guards := [] } calls = some w) :
    (w.pool.idle_connections_.map conn_id).Nodup
      ∧ (∀ g, g ∈ w.guards → conn_id g.conn_ ∉ w.pool.idle_connections_.map conn_id)
      ∧ ((w.guards.map ConnectionGuard.conn_).map conn_id).Nodup := by
  have hp0 := (init_returned_facts factory n p0 hinit).2.2.1
  obtain ⟨len, _, _, _, hidle, _⟩ := init_slots_traced factory n
    { pool := ConnectionPool.construct n, failed := 0, calls := 0 }
  have hidle0 : p0.idle_connections_ = pushed_by_calls factory 0 len := by
    rw [hp0]
    unfold init_run
    simpa [ConnectionPool.construct] using hidle
  have h0 : exclusive { pool := p0, guards := [] } := by
    unfold exclusive owned
    simp only [List.map_nil, List.append_nil]
    rw [hidle0]
    exact pushed_by_calls_nodup factory hdist 0 len
  have hw := run_keeps_exclusive calls _ w h0 hrun
  unfold exclusive owned at hw
  rw [List.map_append, List.nodup_append] at hw
  obtain ⟨h1, h2, h3⟩ := hw
  refine ⟨h1, ?_, h2⟩
  intro g hg hmem
  exact h3 hmem (List.mem_map_of_mem conn_id (List.mem_map_of_mem ConnectionGuard.conn_ hg))

/-- Witness of C13: the 3-resource pool; two guards are taken and the older
one is released: connection 1 is held, connections 2 and 0 are idle. -/
theorem exclusive_ownership_after_init_witness :
    ([some ⟨2, true⟩, some ⟨0, true⟩].map conn_id).Nodup
      ∧ (∀ g, g ∈ [(⟨some ⟨1, true⟩⟩ : ConnectionGuard)] →
          conn_id g.conn_ ∉ [some ⟨2, true⟩, some ⟨0, true⟩].map conn_id)
      ∧ (([(⟨some ⟨1, true⟩⟩ : ConnectionGuard)].map ConnectionGuard.conn_).map conn_id).Nodup :=
  exclusive_ownership_after_init factory_all_ok 3 pool3
    [.get_connection, .get_connection, .guard_destroyed 1]
    ⟨⟨3, [some ⟨2, true⟩, some ⟨0, true⟩], 1⟩, [⟨some ⟨1, true⟩⟩]⟩
    (by
      intro j k c d hj hk hid
      simp only [factory_all_ok, create_connection, Bool.not_true, Bool.false_eq_true, if_false,
        Except.ok.injEq, Option.some.injEq] at hj hk
      subst hj
      subst hk
      exact hid)
    (by decide) (by decide)

end PqxxPool
